import Mathlib

/-!
Shallow embedding of `src/neural/parameters.h` (namespace ML): the
polymorphic parameter-tree abstraction (leaf views over contiguous numeric
buffers, composite containers, flattening-order operations).

Modelling conventions:
* Scalars are `ℚ` (the C++ code stores `float`/`double`; every operation
  verified here copies or combines values generically, so an exact numeric
  field is the faithful reading).
* Memory is one flat `List ℚ`; a C++ pointer into a buffer becomes a natural
  number offset into that list.  Operations that receive writable pointers
  thread the memory through explicitly and return the (possibly updated)
  memory next to their result, so frame properties are actual theorems.
* A C++ `throw Exception(...)` becomes `Except.error`; the thrown error is
  returned together with the memory as it was at the throw point, which
  mirrors the code because each check precedes every write in the source.
* `ptrdiff_t` subtraction `limit - where` is modelled as subtraction in `ℤ`.
  The C++ comparison converts the signed difference to `size_t`; the two
  agree whenever `where ≤ limit`, which holds for every call considered by
  the verified properties.
-/

namespace ML

/-- Failure taxonomy of the parameters component (the C++ code throws
`ML::Exception` with a message; the spec names the cases). -/
inductive Err where
  | SizeMismatch
  | ShapeMismatch
  | DuplicateIndex
  | DuplicateName
  | NotFound
  | NameMismatch
deriving DecidableEq, Repr

/-- The `n` scalars of memory starting at offset `off` (the C++ range
`[ptr, ptr + n)`). -/
def readRange (mem : List ℚ) (off n : ℕ) : List ℚ :=
  (mem.drop off).take n

/-- Overwrite memory at offset `off` with the scalars `xs`
(the C++ `std::copy(xs.begin(), xs.end(), mem + off)`). -/
def writeRange (mem : List ℚ) (off : ℕ) (xs : List ℚ) : List ℚ :=
  mem.take off ++ xs ++ mem.drop (off + xs.length)

/-- `Vector_Ref<Underlying>`: a non-owning 1-D view. `array_` is the offset
of the referenced buffer in memory, `size_` its element count. -/
structure Vector_Ref where
  name_ : String
  array_ : ℕ
  size_ : ℕ
deriving DecidableEq, Repr

namespace Vector_Ref

/-- `Vector_Ref::parameter_count()`: `return size_;` -/
def parameter_count (v : Vector_Ref) : ℕ := v.size_

/-- `Vector_Ref::copy_to(where, limit)`:
`if (limit - where > size_) throw; std::copy(array_, array_ + size_, where); return where + size_;` -/
def copy_to (v : Vector_Ref) (mem : List ℚ) (where_ limit : ℕ) :
    Except Err ℕ × List ℚ :=
  if (limit : ℤ) - (where_ : ℤ) > (v.size_ : ℤ) then
    (.error .SizeMismatch, mem)
  else
    (.ok (where_ + v.size_), writeRange mem where_ (readRange mem v.array_ v.size_))

/-- `Vector_Ref::compatible_ref(first, last)`:
`if (first + size_ != last) throw; return new Vector_Ref(name(), first, size_);` -/
def compatible_ref (v : Vector_Ref) (mem : List ℚ) (first last_ : ℕ) :
    Except Err Vector_Ref × List ℚ :=
  if first + v.size_ ≠ last_ then
    (.error .SizeMismatch, mem)
  else
    (.ok ⟨v.name_, first, v.size_⟩, mem)

end Vector_Ref

/-- `Matrix_Ref<Underlying>`: a non-owning 2-D row-major view. `array_` is
the offset of the referenced buffer, the shape is `size1_ × size2_`. -/
structure Matrix_Ref where
  name_ : String
  array_ : ℕ
  size1_ : ℕ
  size2_ : ℕ
deriving DecidableEq, Repr

namespace Matrix_Ref

/-- `Matrix_Ref::parameter_count()`: `return size1_ * size2_;` -/
def parameter_count (m : Matrix_Ref) : ℕ := m.size1_ * m.size2_

/-- `Matrix_Ref::copy_to(where, limit)`:
`n = parameter_count(); if (limit - where > n) throw; std::copy(array_, array_ + n, where); return where + n;` -/
def copy_to (m : Matrix_Ref) (mem : List ℚ) (where_ limit : ℕ) :
    Except Err ℕ × List ℚ :=
  let n := m.parameter_count
  if (limit : ℤ) - (where_ : ℤ) > (n : ℤ) then
    (.error .SizeMismatch, mem)
  else
    (.ok (where_ + n), writeRange mem where_ (readRange mem m.array_ n))

/-- `Matrix_Ref::compatible_ref(first, last)`:
`n = parameter_count(); if (first + n != last) throw; return new Matrix_Ref(name(), first, size1_, size2_);` -/
def compatible_ref (m : Matrix_Ref) (mem : List ℚ) (first last_ : ℕ) :
    Except Err Matrix_Ref × List ℚ :=
  let n := m.parameter_count
  if first + n ≠ last_ then
    (.error .SizeMismatch, mem)
  else
    (.ok ⟨m.name_, first, m.size1_, m.size2_⟩, mem)

end Matrix_Ref

/-- A parameter tree: the closed variant of the `Parameter_Value` class
hierarchy. A composite node carries its name and its children as an
association list from registration index to child, kept in ascending index
order (the canonical flattening order). -/
inductive PTree where
  | vec : Vector_Ref → PTree
  | mat : Matrix_Ref → PTree
  | comp : String → List (Int × PTree) → PTree

/-- `Parameter_Value::name()`. -/
def PTree.name : PTree → String
  | .vec v => v.name_
  | .mat m => m.name_
  | .comp nm _ => nm

mutual

/-- `parameter_count()`: for the leaves this is `Vector_Ref::parameter_count`
and `Matrix_Ref::parameter_count` from the header.
Modelled from the spec for the composite case (`Parameters::parameter_count`
is declared in the header, its body is not in the repository snapshot):
the recursive sum of the children's counts. -/
def PTree.parameter_count : PTree → ℕ
  | .vec v => v.parameter_count
  | .mat m => m.parameter_count
  | .comp _ cs => paramsCount cs

/-- Sum of the parameter counts of a child list. -/
def paramsCount : List (Int × PTree) → ℕ
  | [] => 0
  | (_, t) :: rest => t.parameter_count + paramsCount rest

end

mutual

/-- `copy_to(where, limit)` on a tree: the leaf cases are
`Vector_Ref::copy_to` / `Matrix_Ref::copy_to` from the header.
Modelled from the spec for the composite case (`Parameters::copy_to` is
declared only): the depth-first, index-ascending concatenation of every
child's `copy_to`, each child receiving the cursor advanced by the previous
child and the same end-of-buffer `limit` (the flattening contract). -/
def PTree.copy_to : PTree → List ℚ → ℕ → ℕ → Except Err ℕ × List ℚ
  | .vec v, mem, where_, limit => v.copy_to mem where_ limit
  | .mat m, mem, where_, limit => m.copy_to mem where_ limit
  | .comp _ cs, mem, where_, limit => paramsCopyTo cs mem where_ limit

/-- Fold `copy_to` over a child list, threading cursor and memory; a child
failure propagates (the C++ exception unwinds past the remaining children). -/
def paramsCopyTo : List (Int × PTree) → List ℚ → ℕ → ℕ → Except Err ℕ × List ℚ
  | [], mem, where_, _ => (.ok where_, mem)
  | (_, t) :: rest, mem, where_, limit =>
    match t.copy_to mem where_ limit with
    | (.ok cur, mem2) => paramsCopyTo rest mem2 cur limit
    | (.error e, mem2) => (.error e, mem2)

end

mutual

/-- `compatible_ref(first, last)` on a tree: the leaf cases are
`Vector_Ref::compatible_ref` / `Matrix_Ref::compatible_ref` from the header.
Modelled from the spec for the composite case (`Parameters::compatible_ref`
is declared only): fails with SizeMismatch if the range's total size differs
from `parameter_count()`, otherwise builds a structurally identical tree
whose leaves alias successive slices of the flat range, partitioned by the
per-leaf sizes of the flattening order. -/
def PTree.compatible_ref : PTree → List ℚ → ℕ → ℕ → Except Err PTree × List ℚ
  | .vec v, mem, first, last_ =>
    match v.compatible_ref mem first last_ with
    | (.ok r, mem2) => (.ok (.vec r), mem2)
    | (.error e, mem2) => (.error e, mem2)
  | .mat m, mem, first, last_ =>
    match m.compatible_ref mem first last_ with
    | (.ok r, mem2) => (.ok (.mat r), mem2)
    | (.error e, mem2) => (.error e, mem2)
  | .comp nm cs, mem, first, last_ =>
    if first + paramsCount cs ≠ last_ then
      (.error .SizeMismatch, mem)
    else
      match paramsCompatRef cs mem first with
      | (.ok cs2, mem2) => (.ok (.comp nm cs2), mem2)
      | (.error e, mem2) => (.error e, mem2)

/-- Build compatible references for a child list over successive slices of
the flat range starting at the given cursor. -/
def paramsCompatRef : List (Int × PTree) → List ℚ → ℕ → Except Err (List (Int × PTree)) × List ℚ
  | [], mem, _ => (.ok [], mem)
  | (i, t) :: rest, mem, cur =>
    match t.compatible_ref mem cur (cur + t.parameter_count) with
    | (.ok t2, mem2) =>
      match paramsCompatRef rest mem2 (cur + t.parameter_count) with
      | (.ok rest2, mem3) => (.ok ((i, t2) :: rest2), mem3)
      | (.error e, mem3) => (.error e, mem3)
    | (.error e, mem2) => (.error e, mem2)

end

/-- Modelled from the spec (`Parameter_Value::compatible_copy` is declared in
the header, its body is not in the repository snapshot): equivalent to
`compatible_ref` followed by populating the new range via `copy_to`. -/
def PTree.compatible_copy (t : PTree) (mem : List ℚ) (first last_ : ℕ) :
    Except Err PTree × List ℚ :=
  match t.compatible_ref mem first last_ with
  | (.error e, mem2) => (.error e, mem2)
  | (.ok r, mem2) =>
    match t.copy_to mem2 first last_ with
    | (.error e, mem3) => (.error e, mem3)
    | (.ok _, mem3) => (.ok r, mem3)

/-- The `Parameters` composite container state: the ordered child list
`params` (index → child, ascending index = flattening order) and the
`by_name` lookup table (name → index), as in the header's data members. -/
structure Parameters where
  name_ : String
  by_name : List (String × Int)
  params : List (Int × PTree)

/-- `Parameters::parameter_count()`: sum of the children's counts. -/
def Parameters.parameter_count (p : Parameters) : ℕ := paramsCount p.params

/-- Insert a child into the ordered child list, keeping ascending index
order (the flattening order). -/
def insertChild (index : Int) (c : PTree) : List (Int × PTree) → List (Int × PTree)
  | [] => [(index, c)]
  | x :: xs => if index < x.1 then (index, c) :: x :: xs else x :: insertChild index c xs

/-- Modelled from the spec (`Parameters::add` is declared in the header, its
body is not in the repository snapshot): registers a child at `index`; fails
with DuplicateIndex if `index` is already occupied, with DuplicateName if
another child already has that name at a different index; on failure the
container is returned unchanged. -/
def Parameters.add (p : Parameters) (index : Int) (child : PTree) :
    Except Err Unit × Parameters :=
  if index ∈ p.params.map Prod.fst then
    (.error .DuplicateIndex, p)
  else if ∃ e ∈ p.by_name, e.1 = child.name ∧ e.2 ≠ index then
    (.error .DuplicateName, p)
  else
    (.ok (), ⟨p.name_, (child.name, index) :: p.by_name, insertChild index child p.params⟩)

/-- Modelled from the spec (`Parameters::clear` is declared in the header,
its body is not in the repository snapshot; the header comments: "Remove all
parameter references from this object.  Doesn't actually modify any of the
parameter values."): drops the index and name tables and touches no memory. -/
def Parameters.clear (p : Parameters) (mem : List ℚ) : Parameters × List ℚ :=
  ({ p with by_name := [], params := [] }, mem)

/-- Modelled from the spec (`Parameters::update` is declared in the header,
its body is not in the repository snapshot): over the flattened scalar
sequences of two identically shaped trees, `this[i] += rate * other[i]` at
every flattened position; differently shaped operands fail with
ShapeMismatch. -/
def Parameters.update (xs ys : List ℚ) (rate : ℚ) : Except Err (List ℚ) :=
  if xs.length ≠ ys.length then .error .ShapeMismatch
  else .ok (List.zipWith (fun a b => a + rate * b) xs ys)

/-- Modelled from the spec (`Parameters::operator +=` is declared in the
header, its body is not in the repository snapshot): elementwise addition
over the flattened scalar sequences; differently shaped operands fail with
ShapeMismatch. -/
def Parameters.addAssign (xs ys : List ℚ) : Except Err (List ℚ) :=
  if xs.length ≠ ys.length then .error .ShapeMismatch
  else .ok (List.zipWith (· + ·) xs ys)

/-- C1: the claim says that a destination range of capacity strictly below
`parameter_count()` makes `copy_to` fail with SizeMismatch and write nothing.
The code's check is inverted (`limit - where > size_`), so at where = 3,
limit = 5 (capacity 2) a size-3 vector leaf does NOT fail: it copies all
three elements — overrunning `limit` — modifies the destination range, and
returns the advanced cursor. -/
theorem c1_copy_to_small_range_not_rejected :
    Vector_Ref.copy_to ⟨"w", 0, 3⟩ [1, 2, 3, 0, 0, 0, 0] 3 5 =
      (.ok 6, [1, 2, 3, 1, 2, 3, 0]) := rfl

/-- C2: the claim says that any destination range of capacity at least
`parameter_count()` makes `copy_to` succeed. The code's check
`limit - where > size_` throws exactly in that case: at where = 3, limit = 7
(capacity 4 ≥ 3) the size-3 vector leaf fails with SizeMismatch instead of
copying, so sequential appending into a larger flat buffer is impossible. -/
theorem c2_copy_to_large_range_rejected :
    Vector_Ref.copy_to ⟨"w", 0, 3⟩ [1, 2, 3, 0, 0, 0, 0] 3 7 =
      (.error .SizeMismatch, [1, 2, 3, 0, 0, 0, 0]) := rfl

/-- C3: for both leaf shapes, `compatible_ref(first, last)` fails with
SizeMismatch exactly when `last - first ≠ parameter_count()`; on success it
returns a new leaf with the same name and the same dimensions whose storage
is the range starting at `first`, and the memory is returned unchanged
(no data copy: neither the supplied range nor the source storage is
modified). -/
theorem c3_compatible_ref_characterization
    (v : Vector_Ref) (m : Matrix_Ref) (mem mem2 : List ℚ)
    (first last_ first2 last2 : ℕ) :
    v.compatible_ref mem first last_ =
      ((if (last_ : ℤ) - (first : ℤ) ≠ (v.parameter_count : ℤ) then .error .SizeMismatch
        else .ok ⟨v.name_, first, v.size_⟩), mem) ∧
    m.compatible_ref mem2 first2 last2 =
      ((if (last2 : ℤ) - (first2 : ℤ) ≠ (m.parameter_count : ℤ) then .error .SizeMismatch
        else .ok ⟨m.name_, first2, m.size1_, m.size2_⟩), mem2) := by
  constructor
  · simp only [Vector_Ref.compatible_ref, Vector_Ref.parameter_count]
    split_ifs with h1 h2 <;> first | rfl | omega
  · simp only [Matrix_Ref.compatible_ref, Matrix_Ref.parameter_count]
    split_ifs with h1 h2 <;> first | rfl | omega

/-- C10: for both leaf shapes, a destination range whose capacity
`limit - where` equals `parameter_count()` exactly is accepted by `copy_to`
(the copy completes and the advanced cursor is returned), while the strict
comparison `limit - where > parameter_count()` is what triggers the
SizeMismatch exception. -/
theorem c10_copy_to_exact_fit_accepted
    (v : Vector_Ref) (m : Matrix_Ref) (mem mem2 : List ℚ) (w lim w2 lim2 : ℕ)
    (hv : (lim : ℤ) - (w : ℤ) = (v.parameter_count : ℤ))
    (hm : (lim2 : ℤ) - (w2 : ℤ) = (m.parameter_count : ℤ)) :
    v.copy_to mem w lim =
      (.ok (w + v.parameter_count), writeRange mem w (readRange mem v.array_ v.size_)) ∧
    m.copy_to mem2 w2 lim2 =
      (.ok (w2 + m.parameter_count), writeRange mem2 w2 (readRange mem2 m.array_ m.parameter_count)) ∧
    (∀ w3 lim3 : ℕ, (lim3 : ℤ) - (w3 : ℤ) > (v.parameter_count : ℤ) →
      (v.copy_to mem w3 lim3).1 = .error .SizeMismatch) ∧
    (∀ w4 lim4 : ℕ, (lim4 : ℤ) - (w4 : ℤ) > (m.parameter_count : ℤ) →
      (m.copy_to mem2 w4 lim4).1 = .error .SizeMismatch) := by
  simp only [Vector_Ref.parameter_count] at hv
  simp only [Matrix_Ref.parameter_count] at hm
  refine ⟨?_, ?_, ?_, ?_⟩
  · simp only [Vector_Ref.copy_to, Vector_Ref.parameter_count]
    rw [if_neg (by omega)]
  · simp only [Matrix_Ref.copy_to, Matrix_Ref.parameter_count]
    rw [if_neg (by omega)]
  · intro w3 lim3 h
    simp only [Vector_Ref.parameter_count] at h
    simp only [Vector_Ref.copy_to]
    rw [if_pos (by omega)]
  · intro w4 lim4 h
    simp only [Matrix_Ref.parameter_count] at h
    simp only [Matrix_Ref.copy_to, Matrix_Ref.parameter_count]
    rw [if_pos (by omega)]

/-- Witness for C10 at concrete inputs: a size-2 vector leaf and a 1×2
matrix leaf, each copied into an exactly fitting range, succeed; ranges with
strictly larger capacity trigger SizeMismatch. -/
theorem c10_copy_to_exact_fit_accepted_witness :
    Vector_Ref.copy_to ⟨"a", 0, 2⟩ [1, 2, 0, 0] 2 4 = (.ok 4, [1, 2, 1, 2]) ∧
    Matrix_Ref.copy_to ⟨"b", 0, 1, 2⟩ [3, 4, 0, 0] 2 4 = (.ok 4, [3, 4, 3, 4]) ∧
    (Vector_Ref.copy_to ⟨"a", 0, 2⟩ [1, 2, 0, 0] 0 5).1 = .error .SizeMismatch ∧
    (Matrix_Ref.copy_to ⟨"b", 0, 1, 2⟩ [3, 4, 0, 0] 0 5).1 = .error .SizeMismatch := by
  have h := c10_copy_to_exact_fit_accepted ⟨"a", 0, 2⟩ ⟨"b", 0, 1, 2⟩
    [1, 2, 0, 0] [3, 4, 0, 0] 2 4 2 4 (by decide) (by decide)
  exact ⟨h.1, h.2.1, h.2.2.1 0 5 (by decide), h.2.2.2 0 5 (by decide)⟩

/-- C4: the claim says that `compatible_copy` on a range of exactly
`parameter_count()` elements equals `compatible_ref` followed by populating
the range via `copy_to`, so the round trip reproduces the flattening. For a
composite of two size-1 vector leaves over memory `[10, 20, 0, 0]` and the
exact-length destination range `[2, 4)`, `compatible_ref` succeeds and
aliases the two slices, but populating via `copy_to` throws SizeMismatch —
the first child's `copy_to` receives capacity 2 for its single element and
the inverted capacity check rejects it — so no compatible copy is produced
and nothing can be reproduced. -/
theorem c4_compatible_copy_failing_eval :
    PTree.compatible_copy (.comp "p" [(0, .vec ⟨"a", 0, 1⟩), (1, .vec ⟨"b", 1, 1⟩)])
      [10, 20, 0, 0] 2 4 = (.error .SizeMismatch, [10, 20, 0, 0]) ∧
    PTree.compatible_ref (.comp "p" [(0, .vec ⟨"a", 0, 1⟩), (1, .vec ⟨"b", 1, 1⟩)])
      [10, 20, 0, 0] 2 4 =
      (.ok (.comp "p" [(0, .vec ⟨"a", 2, 1⟩), (1, .vec ⟨"b", 3, 1⟩)]), [10, 20, 0, 0]) :=
  ⟨rfl, rfl⟩

/-- The sum of a child list's counts is the sum of its mapped counts. -/
theorem paramsCount_eq_sum (cs : List (Int × PTree)) :
    paramsCount cs = (cs.map (fun c => c.2.parameter_count)).sum := by
  induction cs with
  | nil => rfl
  | cons x xs ih => cases x with | mk i t => simp [paramsCount, ih]

/-- C7: `parameter_count()` of a Vector leaf is its declared size, of a
Matrix leaf is rows times columns, and of a composite the recursive sum of
its children's counts. -/
theorem c7_parameter_count_shapes :
    (∀ v : Vector_Ref, (PTree.vec v).parameter_count = v.size_) ∧
    (∀ m : Matrix_Ref, (PTree.mat m).parameter_count = m.size1_ * m.size2_) ∧
    (∀ (nm : String) (cs : List (Int × PTree)),
      (PTree.comp nm cs).parameter_count = (cs.map (fun c => c.2.parameter_count)).sum) := by
  refine ⟨fun v => rfl, fun m => rfl, fun nm cs => ?_⟩
  simp [PTree.parameter_count, paramsCount_eq_sum]

/-- C8: after `clear()` the composite has `parameter_count() = 0`, empty
child and name tables, and no scalar of any memory a detached leaf may have
referenced is modified. -/
theorem c8_clear_empties_and_preserves_memory (p : Parameters) (mem : List ℚ) :
    (p.clear mem).1.parameter_count = 0 ∧
    (p.clear mem).1.by_name = [] ∧
    (p.clear mem).1.params = [] ∧
    (p.clear mem).2 = mem :=
  ⟨rfl, rfl, rfl, rfl⟩

/-- Adding `rate = 0` times anything is the identity on the left list. -/
theorem zipWith_add_zero_mul (xs ys : List ℚ) (h : xs.length ≤ ys.length) :
    List.zipWith (fun a b => a + (0 : ℚ) * b) xs ys = xs := by
  induction xs generalizing ys with
  | nil => rfl
  | cons x xs ih =>
    cases ys with
    | nil => simp at h
    | cons y ys => simp_all

/-- C5: for equally shaped flattened sequences, `update(other, rate)` yields
`this[i] + rate * other[i]` at every flattened position; `update(other, 0)`
leaves every value unchanged, and `update(other, 1)` coincides with
`operator+=`. -/
theorem c5_update_gradient_step (xs ys : List ℚ) (rate : ℚ)
    (h : xs.length = ys.length) :
    (∃ zs, Parameters.update xs ys rate = .ok zs ∧ zs.length = xs.length ∧
      ∀ i : ℕ, i < zs.length → zs.getD i 0 = xs.getD i 0 + rate * ys.getD i 0) ∧
    Parameters.update xs ys 0 = .ok xs ∧
    Parameters.update xs ys 1 = Parameters.addAssign xs ys := by
  refine ⟨⟨List.zipWith (fun a b => a + rate * b) xs ys, ?_, ?_, ?_⟩, ?_, ?_⟩
  · simp [Parameters.update, h]
  · simp [List.length_zipWith, h]
  · intro i hi
    have hi2 := hi
    rw [List.length_zipWith] at hi2
    have hx : i < xs.length := lt_of_lt_of_le hi2 (min_le_left _ _)
    have hy : i < ys.length := lt_of_lt_of_le hi2 (min_le_right _ _)
    rw [List.getD_eq_getElem _ _ hi, List.getD_eq_getElem _ _ hx,
      List.getD_eq_getElem _ _ hy, List.getElem_zipWith]
  · simp only [Parameters.update]
    rw [if_neg (by omega), zipWith_add_zero_mul xs ys (le_of_eq h)]
  · simp only [Parameters.update, Parameters.addAssign, one_mul]

/-- Witness for C5 at concrete inputs: on `[1, 2]` and `[3, 4]`,
`update` with rate 0 is the identity and `update` with rate 1 agrees with
`operator+=`. -/
theorem c5_update_gradient_step_witness :
    Parameters.update [1, 2] [3, 4] 0 = .ok [1, 2] ∧
    Parameters.update [1, 2] [3, 4] 1 = Parameters.addAssign [1, 2] [3, 4] := by
  exact ⟨(c5_update_gradient_step [1, 2] [3, 4] 0 (by decide)).2.1,
    (c5_update_gradient_step [1, 2] [3, 4] 1 (by decide)).2.2⟩

/-- The inserted child is a member of the child list it was inserted into. -/
theorem mem_insertChild (i : Int) (c : PTree) (l : List (Int × PTree)) :
    (i, c) ∈ insertChild i c l := by
  induction l with
  | nil => exact List.mem_singleton_self _
  | cons x xs ih =>
    simp only [insertChild]
    split_ifs
    · exact List.mem_cons_self _ _
    · exact List.mem_cons_of_mem _ ih

/-- C6: `add(index, value)` fails with DuplicateIndex when the index is
already occupied and with DuplicateName when another child already holds
that name at a different index, each time leaving the child list and the
name table unchanged; otherwise it succeeds and the child is registered at
the index (present in the child list, and recorded in the name table). -/
theorem c6_add_registration (p : Parameters) (i : Int) (c : PTree) :
    ((∃ t, (i, t) ∈ p.params) → p.add i c = (.error .DuplicateIndex, p)) ∧
    ((¬ ∃ t, (i, t) ∈ p.params) → (∃ e ∈ p.by_name, e.1 = c.name ∧ e.2 ≠ i) →
      p.add i c = (.error .DuplicateName, p)) ∧
    ((¬ ∃ t, (i, t) ∈ p.params) → (¬ ∃ e ∈ p.by_name, e.1 = c.name ∧ e.2 ≠ i) →
      (p.add i c).1 = .ok () ∧ (i, c) ∈ (p.add i c).2.params ∧
        (c.name, i) ∈ (p.add i c).2.by_name) := by
  have hmem : i ∈ p.params.map Prod.fst ↔ ∃ t, (i, t) ∈ p.params := by
    simp only [List.mem_map]
    constructor
    · rintro ⟨⟨j, t⟩, hjt, rfl⟩
      exact ⟨t, hjt⟩
    · rintro ⟨t, ht⟩
      exact ⟨(i, t), ht, rfl⟩
  refine ⟨?_, ?_, ?_⟩
  · intro hocc
    simp only [Parameters.add]
    rw [if_pos (hmem.mpr hocc)]
  · intro hnocc hname
    simp only [Parameters.add]
    rw [if_neg (fun hmm => hnocc (hmem.mp hmm)), if_pos hname]
  · intro hnocc hname
    simp only [Parameters.add]
    rw [if_neg (fun hmm => hnocc (hmem.mp hmm)), if_neg hname]
    exact ⟨rfl, mem_insertChild i c p.params, List.mem_cons_self _ _⟩

/-- Witness for C6 on a composite holding one child named "a" at index 0:
adding at occupied index 0 fails with DuplicateIndex, adding a second "a" at
index 1 fails with DuplicateName (both leaving it unchanged), and adding "b"
at index 1 succeeds and registers the child. -/
theorem c6_add_registration_witness :
    Parameters.add ⟨"root", [("a", 0)], [(0, .vec ⟨"a", 0, 1⟩)]⟩ 0 (.vec ⟨"x", 5, 1⟩) =
      (.error .DuplicateIndex, ⟨"root", [("a", 0)], [(0, .vec ⟨"a", 0, 1⟩)]⟩) ∧
    Parameters.add ⟨"root", [("a", 0)], [(0, .vec ⟨"a", 0, 1⟩)]⟩ 1 (.vec ⟨"a", 5, 1⟩) =
      (.error .DuplicateName, ⟨"root", [("a", 0)], [(0, .vec ⟨"a", 0, 1⟩)]⟩) ∧
    (Parameters.add ⟨"root", [("a", 0)], [(0, .vec ⟨"a", 0, 1⟩)]⟩ 1 (.vec ⟨"b", 5, 1⟩)).1
      = .ok () ∧
    ((1 : Int), PTree.vec ⟨"b", 5, 1⟩) ∈
      (Parameters.add ⟨"root", [("a", 0)], [(0, .vec ⟨"a", 0, 1⟩)]⟩ 1 (.vec ⟨"b", 5, 1⟩)).2.params ∧
    ("b", (1 : Int)) ∈
      (Parameters.add ⟨"root", [("a", 0)], [(0, .vec ⟨"a", 0, 1⟩)]⟩ 1 (.vec ⟨"b", 5, 1⟩)).2.by_name := by
  have h1 := (c6_add_registration ⟨"root", [("a", 0)], [(0, .vec ⟨"a", 0, 1⟩)]⟩ 0
      (.vec ⟨"x", 5, 1⟩)).1 ⟨.vec ⟨"a", 0, 1⟩, List.mem_singleton_self _⟩
  have hno : ¬ ∃ t, ((1 : Int), t) ∈ [((0 : Int), PTree.vec ⟨"a", 0, 1⟩)] := by
    rintro ⟨t, ht⟩
    rw [List.mem_singleton] at ht
    have hfst : (1 : Int) = 0 := congrArg Prod.fst ht
    exact absurd hfst (by decide)
  have h2 := (c6_add_registration ⟨"root", [("a", 0)], [(0, .vec ⟨"a", 0, 1⟩)]⟩ 1
      (.vec ⟨"a", 5, 1⟩)).2.1 hno ⟨("a", 0), List.mem_singleton_self _, rfl, by decide⟩
  have h3 := (c6_add_registration ⟨"root", [("a", 0)], [(0, .vec ⟨"a", 0, 1⟩)]⟩ 1
      (.vec ⟨"b", 5, 1⟩)).2.2 hno (by
        rintro ⟨e, he, he1, he2⟩
        rw [List.mem_singleton] at he
        subst he
        exact absurd he1 (by decide))
  exact ⟨h1, h2, h3.1, h3.2.1, h3.2.2⟩

/-- `writeRange` touches only the offsets `[off, off + xs.length)`: every
other in-range position of memory reads back unchanged. -/
theorem getElem?_writeRange (mem xs : List ℚ) (off i : ℕ)
    (hoff : off + xs.length ≤ mem.length) (h : i < off ∨ off + xs.length ≤ i) :
    (writeRange mem off xs)[i]? = mem[i]? := by
  have hofflen : (List.take off mem).length = off := by
    rw [List.length_take]
    omega
  unfold writeRange
  rcases h with h | h
  · rw [List.getElem?_append, if_pos (by rw [List.length_append, hofflen]; omega),
      List.getElem?_append, if_pos (by rw [hofflen]; omega),
      List.getElem?_take, if_pos h]
  · rw [List.getElem?_append, if_neg (by rw [List.length_append, hofflen]; omega),
      List.length_append, hofflen, List.getElem?_drop]
    congr 1
    omega

/-- Two memories that agree on `[a, a + n)` read the same range there. -/
theorem readRange_congr (mem mem2 : List ℚ) (a n : ℕ)
    (h : ∀ i : ℕ, a ≤ i → i < a + n → mem2[i]? = mem[i]?) :
    readRange mem2 a n = readRange mem a n := by
  unfold readRange
  apply List.ext_getElem?
  intro j
  rw [List.getElem?_take, List.getElem?_take]
  split_ifs with hj
  · rw [List.getElem?_drop, List.getElem?_drop]
    exact h (a + j) (by omega) (by omega)
  · rfl

/-- C9: the leaf operations only read the storage their view references:
`copy_to` writes nowhere outside the destination `[where, where + count)`
(so the view's own referenced range — disjoint from the destination, as the
view holds it through a `const` pointer — reads back unchanged), and
`compatible_ref` returns the memory entirely unchanged. -/
theorem c9_leaf_ops_read_only
    (v : Vector_Ref) (m : Matrix_Ref) (mem mem2 : List ℚ)
    (w lim w2 lim2 first last_ first2 last2 : ℕ)
    (hv : w + v.size_ ≤ mem.length)
    (hdv : v.array_ + v.size_ ≤ w ∨ w + v.size_ ≤ v.array_)
    (hm : w2 + m.parameter_count ≤ mem2.length)
    (hdm : m.array_ + m.parameter_count ≤ w2 ∨ w2 + m.parameter_count ≤ m.array_) :
    readRange (v.copy_to mem w lim).2 v.array_ v.size_ = readRange mem v.array_ v.size_ ∧
    readRange (m.copy_to mem2 w2 lim2).2 m.array_ m.parameter_count
      = readRange mem2 m.array_ m.parameter_count ∧
    (v.compatible_ref mem first last_).2 = mem ∧
    (m.compatible_ref mem2 first2 last2).2 = mem2 := by
  refine ⟨?_, ?_, ?_, ?_⟩
  · simp only [Vector_Ref.copy_to]
    split_ifs with hc
    · rfl
    · have hlen : (readRange mem v.array_ v.size_).length ≤ v.size_ := by
        simp only [readRange, List.length_take]
        exact min_le_left _ _
      apply readRange_congr
      intro i hi1 hi2
      exact getElem?_writeRange mem _ w i (by omega) (by omega)
  · simp only [Matrix_Ref.copy_to]
    split_ifs with hc
    · rfl
    · have hlen : (readRange mem2 m.array_ m.parameter_count).length ≤ m.parameter_count := by
        simp only [readRange, List.length_take]
        exact min_le_left _ _
      apply readRange_congr
      intro i hi1 hi2
      exact getElem?_writeRange mem2 _ w2 i (by omega) (by omega)
  · simp only [Vector_Ref.compatible_ref]
    split_ifs <;> rfl
  · simp only [Matrix_Ref.compatible_ref]
    split_ifs <;> rfl

/-- Witness for C9 at concrete inputs: copying each leaf's two elements into
the disjoint destination `[2, 4)` leaves the referenced range `[0, 2)`
unchanged, and `compatible_ref` leaves the whole memory unchanged. -/
theorem c9_leaf_ops_read_only_witness :
    readRange (Vector_Ref.copy_to ⟨"a", 0, 2⟩ [1, 2, 5, 5] 2 4).2 0 2 = [1, 2] ∧
    readRange (Matrix_Ref.copy_to ⟨"b", 0, 1, 2⟩ [3, 4, 7, 7] 2 4).2 0 2 = [3, 4] ∧
    (Vector_Ref.compatible_ref ⟨"a", 0, 2⟩ [1, 2, 5, 5] 0 2).2 = [1, 2, 5, 5] ∧
    (Matrix_Ref.compatible_ref ⟨"b", 0, 1, 2⟩ [3, 4, 7, 7] 0 2).2 = [3, 4, 7, 7] := by
  have h := c9_leaf_ops_read_only ⟨"a", 0, 2⟩ ⟨"b", 0, 1, 2⟩ [1, 2, 5, 5] [3, 4, 7, 7]
    2 4 2 4 0 2 0 2 (by decide) (Or.inl (by decide)) (by decide) (Or.inl (by decide))
  exact ⟨h.1, h.2.1, h.2.2.1, h.2.2.2⟩

end ML
